import Mathlib

/-!
Verification of the sticky-notes interaction and reconciliation core.

The definitions below are a shallow embedding of the TypeScript source:
`mergeServerNotes`, the note-collection operations of `App.tsx`, the
drag-and-drop hook (`startDrag` / `handleDrag` / `endDrag`), and the
state updates of the API storage hook (`saveNote` / `deleteNote`).
Plane coordinates and extents are rationals (the source uses JS numbers),
stacking order is an integer.
-/

namespace StickyNotes

/-! ### Data model and embedded operations -/

/-- Plane point, mirroring the `Position` interface of `types/index.ts`. -/
structure Pos where
  x : ℚ
  y : ℚ
deriving DecidableEq, Repr

/-- Note extent, mirroring the `Size` interface of `types/index.ts`. -/
structure Size where
  width : ℚ
  height : ℚ
deriving DecidableEq, Repr

/-- A sticky note, mirroring the `Note` interface of `types/index.ts`. -/
structure Note where
  id : String
  position : Pos
  size : Size
  text : String
  color : String
  zIndex : Int
deriving DecidableEq, Repr

/-- Lookup in a JS `Map` built by `new Map(prev.map(n => [n.id, n]))`:
for duplicate ids the later entry wins. -/
def byIdGet : List Note → String → Option Note
  | [], _ => none
  | n :: ns, i =>
    match byIdGet ns i with
    | some m => some m
    | none => if n.id = i then some n else none

/-- The per-server-note branch of `mergeServerNotes` in `App.tsx`:
if a local note with the same id exists, keep the server note but take
the local `position`, `size`, `zIndex`. -/
def mergeOne (prev : List Note) (s : Note) : Note :=
  match byIdGet prev s.id with
  | some l => { s with position := l.position, size := l.size, zIndex := l.zIndex }
  | none => s

/-- Embedding of `Math.max(...result.map(n => n.zIndex))` guarded by
`result.length ? _ : 0`, as in `mergeServerNotes` in `App.tsx`. -/
def maxZIndex : List Note → Int
  | [] => 0
  | n :: ns => ns.foldl (fun acc m => max acc m.zIndex) n.zIndex

/-- Embedding of `mergeServerNotes` from `App.tsx`: merge server notes
with local notes, preserving local geometry, appending local-only notes,
and returning the new `nextZIndex` value (`maxZ + 1`). -/
def mergeServerNotes (prev server : List Note) : List Note × Int :=
  let merged := server.map (mergeOne prev)
  let localOnly := prev.filter (fun n => !(server.any (fun s => s.id == n.id)))
  let result := merged ++ localOnly
  (result, maxZIndex result + 1)

/-- Concrete sample note: the local side of the merge scenario from the
specification. -/
def localSample : Note := ⟨"A", ⟨10, 10⟩, ⟨200, 150⟩, "", "#FFE066", 5⟩

/-- The remote counterpart of `localSample`, differing in content and
geometry. -/
def remoteSample : Note := ⟨"A", ⟨0, 0⟩, ⟨50, 50⟩, "hi", "#fff", 1⟩

/-- The `'move' | 'resize'` union of the drag hook. -/
inductive DragType
  | move
  | resize
deriving DecidableEq, Repr

/-- The `DragState` interface of `types/index.ts`; `startSize` is optional
and absent in the idle state. -/
structure DragState where
  isDragging : Bool
  dragType : Option DragType
  startPosition : Pos
  startSize : Option Size
  offset : Pos
deriving DecidableEq, Repr

/-- The hook's state: the `dragState` React state plus the
`draggedNoteId` ref. -/
structure DragController where
  dragState : DragState
  startDraggedId : Option String
deriving DecidableEq, Repr

/-- The initial / reset state of the hook: `isDragging: false`,
`dragType: null`, zero start position and offset, no `startSize`,
`draggedNoteId.current = null`. -/
def idleController : DragController :=
  ⟨⟨false, none, ⟨0, 0⟩, none, ⟨0, 0⟩⟩, none⟩

/-- JS truthiness test `!draggedNoteId.current`: true for `null` and for
the empty string. -/
def jsFalsyId : Option String → Bool
  | none => true
  | some s => s == ""

/-- Intents emitted to the collaborator owning note mutation
(`onMove` / `onResize` / `onDelete`). -/
inductive Intent
  | move (id : String) (p : Pos)
  | resize (id : String) (ext : Size)
  | delete (id : String)
deriving DecidableEq, Repr

/-- Embedding of `startDrag` from the drag hook: store the note id, mark
dragging, remember the note's position and optional size, and compute the
pointer-to-note offset. -/
def startDrag (c : DragController) (noteId : String) (dragType : DragType)
    (clientPosition notePosition : Pos) (noteSize : Option Size) : DragController :=
  { c with
      startDraggedId := some noteId
      dragState :=
        { isDragging := true
          dragType := some dragType
          startPosition := notePosition
          startSize := noteSize
          offset := ⟨clientPosition.x - notePosition.x, clientPosition.y - notePosition.y⟩ } }

/-- Embedding of `handleDrag` from the drag hook: in a drag, compute the
new position from the stored offset and emit a move intent, or for a
resize drag with a stored start size emit a resize intent clamped to the
100 × 80 minimum. It performs no state change and no I/O; it only
forwards intents. -/
def handleDrag (c : DragController) (clientPosition : Pos) : List Intent :=
  if !c.dragState.isDragging || jsFalsyId c.startDraggedId then []
  else
    match c.startDraggedId with
    | none => []
    | some nid =>
      let newPosition : Pos :=
        ⟨clientPosition.x - c.dragState.offset.x, clientPosition.y - c.dragState.offset.y⟩
      match c.dragState.dragType with
      | some DragType.move => [Intent.move nid newPosition]
      | some DragType.resize =>
        match c.dragState.startSize with
        | some sz =>
          let deltaX := newPosition.x - c.dragState.startPosition.x
          let deltaY := newPosition.y - c.dragState.startPosition.y
          [Intent.resize nid ⟨max 100 (sz.width + deltaX), max 80 (sz.height + deltaY)⟩]
        | none => []
      | none => []

/-- A screen-space bounding rectangle, as returned by
`getBoundingClientRect` on the trash zone element. -/
structure Rect where
  left : ℚ
  right : ℚ
  top : ℚ
  bottom : ℚ
deriving DecidableEq, Repr

/-- The `isOverTrash` test of `endDrag`: inclusive on all four edges. -/
def isOverTrash (r : Rect) (p : Pos) : Bool :=
  decide (r.left ≤ p.x) && decide (p.x ≤ r.right) &&
    decide (r.top ≤ p.y) && decide (p.y ≤ r.bottom)

/-- Embedding of `endDrag` from the drag hook: no-op without an active
drag; otherwise, for a move drag dropped inside the trash zone rectangle
(when the trash zone element exists) emit a delete intent, and in every
case reset the drag state and clear the dragged-note ref. -/
def endDrag (c : DragController) (clientPosition : Pos) (trashZone : Option Rect) :
    DragController × List Intent :=
  if !c.dragState.isDragging || jsFalsyId c.startDraggedId then (c, [])
  else
    match c.startDraggedId with
    | none => (c, [])
    | some nid =>
      let intents :=
        match trashZone, c.dragState.dragType with
        | some r, some DragType.move =>
          if isOverTrash r clientPosition then [Intent.delete nid] else []
        | _, _ => []
      (idleController, intents)

/-- An active drag session: `isDragging` is set and the dragged-note ref
holds a JS-truthy (non-empty) id. -/
def sessionActive (c : DragController) : Prop :=
  c.dragState.isDragging = true ∧ ∃ nid, c.startDraggedId = some nid ∧ nid ≠ ""

/-- Embedding of `ApiError{status, message}` from `mockApi.ts` — the
spec's `RemoteError`. -/
structure ApiErr where
  status : Int
  message : String
deriving DecidableEq, Repr

/-- The API storage hook's observable state (`notes`, `isLoading`,
`error`), always-online variant. -/
structure SyncState where
  notes : List Note
  isLoading : Bool
  error : Option String
deriving DecidableEq, Repr

/-- Embedding of the `App` component state: the canonical note list, the
`nextZIndex` stack counter, and the `hasHydratedRef` flag. -/
structure AppState where
  notes : List Note
  nextZIndex : Int
  hasHydrated : Bool
deriving DecidableEq, Repr

/-- Initial `App` state: empty notes, counter 1, not yet hydrated. -/
def initialState : AppState := ⟨[], 1, false⟩

/-- Durable-I/O effects a store operation requests from its adapters. -/
inductive Eff
  | remoteSave (n : Note)
  | remoteDelete (id : String)
  | localWrite (notes : List Note)
deriving DecidableEq, Repr

/-- The note built by `createNote` in `App.tsx`: default 200 × 150 size,
empty text, `zIndex` drawn from the current counter. The id and the
pseudo-random position are taken as parameters. -/
def mkNote (id : String) (p : Pos) (color : String) (z : Int) : Note :=
  ⟨id, p, ⟨200, 150⟩, "", color, z⟩

/-- Embedding of `createNote` from `App.tsx`: append the new note
optimistically, bump the counter, and request a remote save of the new
note. -/
def createNote (s : AppState) (id : String) (p : Pos) (color : String) :
    AppState × List Eff :=
  let newNote := mkNote id p color s.nextZIndex
  ({ s with notes := s.notes ++ [newNote], nextZIndex := s.nextZIndex + 1 },
   [Eff.remoteSave newNote])

/-- Embedding of `moveNote` from `App.tsx`: update the note's position;
when the note exists, request a remote save of the updated note and write
the updated list to local storage. -/
def moveNote (s : AppState) (id : String) (p : Pos) : AppState × List Eff :=
  let notes' := s.notes.map (fun n => if n.id == id then { n with position := p } else n)
  match s.notes.find? (fun n => n.id == id) with
  | some n =>
    let nn := { n with position := p }
    ({ s with notes := notes' },
     [Eff.remoteSave nn,
      Eff.localWrite (s.notes.map (fun m => if m.id == id then nn else m))])
  | none => ({ s with notes := notes' }, [])

/-- Embedding of `resizeNote` from `App.tsx`: purely local size update,
no sync. -/
def resizeNote (s : AppState) (id : String) (sz : Size) : AppState × List Eff :=
  ({ s with notes := s.notes.map (fun n => if n.id == id then { n with size := sz } else n) },
   [])

/-- Embedding of `deleteNote` from `App.tsx`: optimistic local removal
plus a remote delete request. -/
def deleteNoteApp (s : AppState) (id : String) : AppState × List Eff :=
  ({ s with notes := s.notes.filter (fun n => !(n.id == id)) }, [Eff.remoteDelete id])

/-- Embedding of `updateNoteText` from `App.tsx`: local text update; when
the note exists, request a remote save of the updated note. -/
def updateNoteText (s : AppState) (id : String) (text : String) : AppState × List Eff :=
  let notes' := s.notes.map (fun n => if n.id == id then { n with text := text } else n)
  match s.notes.find? (fun n => n.id == id) with
  | some n => ({ s with notes := notes' }, [Eff.remoteSave { n with text := text }])
  | none => ({ s with notes := notes' }, [])

/-- Embedding of `bringToFront` from `App.tsx`: assign the current
counter as the note's `zIndex` and bump the counter; purely local. -/
def bringToFront (s : AppState) (id : String) : AppState × List Eff :=
  ({ s with
      notes := s.notes.map (fun n => if n.id == id then { n with zIndex := s.nextZIndex } else n)
      nextZIndex := s.nextZIndex + 1 },
   [])

/-- The one-time hydration effect of `App.tsx`: skipped once
`hasHydratedRef` is set; otherwise adopt a non-empty `apiNotes` (counter
from its maximum `zIndex`), else a non-empty local snapshot, else wait. -/
def hydrate (s : AppState) (apiNotes savedNotes : List Note) : AppState :=
  if s.hasHydrated then s
  else if apiNotes = [] then
    if savedNotes = [] then s
    else ⟨savedNotes, maxZIndex savedNotes + 1, true⟩
  else ⟨apiNotes, maxZIndex apiNotes + 1, true⟩

/-- Embedding of `refreshFromServer` from `App.tsx`: merge a non-empty
server list into the collection via `mergeServerNotes`; no-op when
empty. -/
def refreshFromServer (s : AppState) (apiNotes : List Note) : AppState :=
  if apiNotes = [] then s
  else
    { s with
        notes := (mergeServerNotes s.notes apiNotes).1
        nextZIndex := (mergeServerNotes s.notes apiNotes).2 }

/-- One operation on the note collection store. -/
inductive Op
  | create (id : String) (p : Pos) (color : String)
  | updText (id : String) (text : String)
  | moveOp (id : String) (p : Pos)
  | resizeOp (id : String) (sz : Size)
  | raiseToFront (id : String)
  | removeOp (id : String)
  | deleteAll
  | refresh (serverNotes : List Note)
  | hydrateOp (apiNotes savedNotes : List Note)
deriving DecidableEq, Repr

/-- Whether an operation replaces the collection wholesale and recomputes
the counter (merge/refresh or hydration). -/
def Op.isReconcile : Op → Bool
  | Op.refresh _ => true
  | Op.hydrateOp _ _ => true
  | _ => false

/-- The local-state transition of one store operation. -/
def stepOp (s : AppState) : Op → AppState
  | Op.create id p color => (createNote s id p color).1
  | Op.updText id t => (updateNoteText s id t).1
  | Op.moveOp id p => (moveNote s id p).1
  | Op.resizeOp id sz => (resizeNote s id sz).1
  | Op.raiseToFront id => (bringToFront s id).1
  | Op.removeOp id => (deleteNoteApp s id).1
  | Op.deleteAll => { s with notes := [] }
  | Op.refresh server => refreshFromServer s server
  | Op.hydrateOp api saved => hydrate s api saved

/-- Run a sequence of store operations. -/
def runOps (s : AppState) (ops : List Op) : AppState := ops.foldl stepOp s

/-- The state update of the hook's `saveNote` for a given remote outcome:
on success, upsert into the hook's list and clear the error; on failure,
record the error message and leave the list alone. -/
def saveNoteApi (sync : SyncState) (note : Note) (outcome : Option ApiErr) : SyncState :=
  match outcome with
  | none =>
    { sync with
        notes :=
          if sync.notes.any (fun n => n.id == note.id)
          then sync.notes.map (fun n => if n.id == note.id then note else n)
          else sync.notes ++ [note]
        isLoading := false
        error := none }
  | some e => { sync with isLoading := false, error := some e.message }

/-- Composition of `createNote` together with the hook's `saveNote` state
update for a given remote outcome. -/
def createNoteWithSave (s : AppState) (sync : SyncState) (id : String) (p : Pos)
    (color : String) (outcome : Option ApiErr) : AppState × SyncState :=
  ((createNote s id p color).1, saveNoteApi sync (mkNote id p color s.nextZIndex) outcome)

/-- The state update of the hook's `deleteNote` against the mock API
database: a simulated failure records its message; otherwise the mock API
removes the note (404 `Note not found` when absent) and on success the
hook removes it from its own list and clears the error. -/
def deleteNoteApi (sync : SyncState) (db : List Note) (id : String)
    (outcome : Option ApiErr) : SyncState × List Note :=
  match outcome with
  | some e => ({ sync with isLoading := false, error := some e.message }, db)
  | none =>
    if db.any (fun n => n.id == id) then
      ({ sync with
          notes := sync.notes.filter (fun n => !(n.id == id))
          isLoading := false
          error := none },
       db.filter (fun n => !(n.id == id)))
    else
      ({ sync with isLoading := false, error := some "Note not found" }, db)

/-- Settle the remote deletes of `deleteAllNotes` one by one, in issue
order (the mock API applies one fixed latency to each call). -/
def deleteManySteps (outcome : String → Option ApiErr) (acc : SyncState × List Note) :
    List String → SyncState × List Note
  | [] => acc
  | id :: rest => deleteManySteps outcome (deleteNoteApi acc.1 acc.2 id (outcome id)) rest

/-- Embedding of `deleteAllNotes` from `App.tsx`: clear the local
collection immediately, then issue one remote delete per note the hook
currently knows, each settling with its own outcome. -/
def deleteAllNotes (s : AppState) (sync : SyncState) (db : List Note)
    (outcome : String → Option ApiErr) : AppState × SyncState × List Note :=
  ({ s with notes := [] }, deleteManySteps outcome (sync, db) (sync.notes.map Note.id))

/-- Dispatch one drag-controller intent to the store operation wired to
it in `App.tsx` (`onMove` / `onResize` / `onDelete`). -/
def applyIntent (s : AppState) : Intent → AppState × List Eff
  | Intent.move id p => moveNote s id p
  | Intent.resize id sz => resizeNote s id sz
  | Intent.delete id => deleteNoteApp s id

/-- End-to-end processing of one `mousemove` event: `handleDrag` computes
the intents, each intent is applied by the store, and — because every
applied intent calls `setNotes` with a freshly built array — the App's
save-on-change effect (`useEffect` over `notes` in `App.tsx`, which calls
`saveToLocal(notes)`) then writes the resulting note list to local
storage. When no intent is forwarded, no state update and hence no
effect run happens. -/
def processPointerMove (c : DragController) (s : AppState) (p : Pos) :
    AppState × List Eff :=
  let intents := handleDrag c p
  let r := intents.foldl
    (fun acc i =>
      let t := applyIntent acc.1 i
      (t.1, acc.2 ++ t.2))
    (s, [])
  if intents.isEmpty then r else (r.1, r.2 ++ [Eff.localWrite r.1.notes])

/-- A sample server-side note with id `"a"` and stack order 1. -/
def serverNote : Note := ⟨"a", ⟨0, 0⟩, ⟨200, 150⟩, "hi", "#fff", 1⟩

/-- Sample note `"b"` for the delete-all scenario. -/
def sampleB : Note := ⟨"b", ⟨1, 1⟩, ⟨200, 150⟩, "two", "#fff", 2⟩

/-- Sample note `"c"` for the delete-all scenario. -/
def sampleC : Note := ⟨"c", ⟨2, 2⟩, ⟨200, 150⟩, "three", "#fff", 3⟩

/-- Outcome map for the delete-all scenario in which the middle delete
fails with a simulated 500 error. -/
def outcomeMid : String → Option ApiErr :=
  fun id => if id == "b" then some ⟨500, "Failed to delete note from server"⟩ else none

/-- Outcome map for the delete-all scenario in which the last delete
fails with a simulated 500 error. -/
def outcomeLast : String → Option ApiErr :=
  fun id => if id == "c" then some ⟨500, "Failed to delete note from server"⟩ else none

/-- A move-mode drag session on note `"a"` with zero offset. -/
def moveController : DragController :=
  ⟨⟨true, some DragType.move, ⟨0, 0⟩, none, ⟨0, 0⟩⟩, some "a"⟩

/-- An app state holding only the sample server note, already hydrated. -/
def appWithA : AppState := ⟨[serverNote], 2, true⟩

/-! ### Lemmas and claim theorems -/

lemma mergeOne_id (prev : List Note) (s : Note) : (mergeOne prev s).id = s.id := by
  unfold mergeOne
  cases byIdGet prev s.id <;> rfl

lemma byIdGet_eq_none {l : List Note} {i : String} (h : ∀ n ∈ l, n.id ≠ i) :
    byIdGet l i = none := by
  induction l with
  | nil => rfl
  | cons n t ih =>
    have ht : byIdGet t i = none := ih fun m hm => h m (List.mem_cons_of_mem _ hm)
    simp [byIdGet, ht, h n (List.mem_cons_self _ _)]

lemma byIdGet_append_some {ys : List Note} {i : String} {v : Note} (xs : List Note)
    (h : byIdGet ys i = some v) : byIdGet (xs ++ ys) i = some v := by
  induction xs with
  | nil => simpa using h
  | cons n t ih => simp [byIdGet, ih]

lemma byIdGet_append_none {ys : List Note} {i : String} (xs : List Note)
    (h : byIdGet ys i = none) : byIdGet (xs ++ ys) i = byIdGet xs i := by
  induction xs with
  | nil => simpa using h
  | cons n t ih => simp [byIdGet, ih]

lemma byIdGet_map_mergeOne {server : List Note} (prev : List Note) {s : Note}
    (hnd : (server.map Note.id).Nodup) (hs : s ∈ server) :
    byIdGet (server.map (mergeOne prev)) s.id = some (mergeOne prev s) := by
  induction server with
  | nil => cases hs
  | cons r rs ih =>
    have hnd0 : (r.id :: rs.map Note.id).Nodup := by
      rw [List.map_cons] at hnd
      exact hnd
    have hnd' := List.nodup_cons.mp hnd0
    rcases List.mem_cons.mp hs with rfl | hmem
    · have hnone : byIdGet (rs.map (mergeOne prev)) s.id = none := by
        apply byIdGet_eq_none
        intro n hn
        rcases List.mem_map.mp hn with ⟨m, hm, rfl⟩
        rw [mergeOne_id]
        intro hid
        exact hnd'.1 (List.mem_map.mpr ⟨m, hm, hid⟩)
      simp [byIdGet, hnone, mergeOne_id]
    · simp [byIdGet, ih hnd'.2 hmem]

lemma localOnly_mem {prev server : List Note} {n : Note}
    (h : n ∈ prev.filter (fun n => !(server.any (fun s => s.id == n.id)))) :
    ∀ s ∈ server, s.id ≠ n.id := by
  have h2 := (List.mem_filter.mp h).2
  intro s hs hid
  rw [Bool.not_eq_true', List.any_eq_false] at h2
  exact h2 s hs (by simpa using hid)

lemma le_foldl_max (l : List Note) (acc : Int) :
    acc ≤ l.foldl (fun a m => max a m.zIndex) acc := by
  induction l generalizing acc with
  | nil => simp
  | cons n t ih => exact le_trans (le_max_left _ _) (ih _)

lemma mem_le_foldl_max {n : Note} {l : List Note} (acc : Int) (h : n ∈ l) :
    n.zIndex ≤ l.foldl (fun a m => max a m.zIndex) acc := by
  induction l generalizing acc with
  | nil => cases h
  | cons m t ih =>
    rcases List.mem_cons.mp h with rfl | ht
    · exact le_trans (le_max_right _ _) (le_foldl_max t _)
    · exact ih _ ht

lemma foldl_max_cases (l : List Note) (acc : Int) :
    l.foldl (fun a m => max a m.zIndex) acc = acc ∨
      ∃ n ∈ l, l.foldl (fun a m => max a m.zIndex) acc = n.zIndex := by
  induction l generalizing acc with
  | nil => left; rfl
  | cons m t ih =>
    rcases ih (max acc m.zIndex) with h | ⟨n, hn, he⟩
    · rcases le_total m.zIndex acc with hle | hle
      · left
        simpa [max_eq_left hle] using h
      · right
        exact ⟨m, List.mem_cons_self _ _, by simpa [max_eq_right hle] using h⟩
    · right
      exact ⟨n, List.mem_cons_of_mem _ hn, he⟩

lemma maxZIndex_ge {n : Note} {l : List Note} (h : n ∈ l) : n.zIndex ≤ maxZIndex l := by
  cases l with
  | nil => cases h
  | cons m t =>
    rcases List.mem_cons.mp h with rfl | ht
    · exact le_foldl_max t _
    · exact mem_le_foldl_max _ ht

lemma maxZIndex_mem {l : List Note} (h : l ≠ []) : ∃ n ∈ l, maxZIndex l = n.zIndex := by
  cases l with
  | nil => exact absurd rfl h
  | cons m t =>
    rcases foldl_max_cases t m.zIndex with he | ⟨n, hn, he⟩
    · exact ⟨m, List.mem_cons_self _ _, he⟩
    · exact ⟨n, List.mem_cons_of_mem _ hn, he⟩

/-- C1: `mergeServerNotes` keeps remote content with local geometry for
shared ids, passes through remote-only notes, appends local-only notes
unchanged, and returns a stack counter equal to 1 + the maximum
`zIndex` of the merged list (1 when the merged list is empty). -/
theorem claim_C1_merge_functional (prev server : List Note) :
    (∀ s ∈ server, ∀ l, byIdGet prev s.id = some l →
      ({ s with position := l.position, size := l.size, zIndex := l.zIndex } : Note)
        ∈ (mergeServerNotes prev server).1) ∧
    (∀ s ∈ server, byIdGet prev s.id = none → s ∈ (mergeServerNotes prev server).1) ∧
    (∀ n ∈ prev, (∀ s ∈ server, s.id ≠ n.id) → n ∈ (mergeServerNotes prev server).1) ∧
    ((mergeServerNotes prev server).1 = [] → (mergeServerNotes prev server).2 = 1) ∧
    (∀ n ∈ (mergeServerNotes prev server).1, n.zIndex < (mergeServerNotes prev server).2) ∧
    ((mergeServerNotes prev server).1 ≠ [] →
      ∃ n ∈ (mergeServerNotes prev server).1, (mergeServerNotes prev server).2 = n.zIndex + 1) := by
  refine ⟨?_, ?_, ?_, ?_, ?_, ?_⟩
  · intro s hs l hl
    have : mergeOne prev s ∈ (mergeServerNotes prev server).1 := by
      simp only [mergeServerNotes, List.mem_append]
      exact Or.inl (List.mem_map.mpr ⟨s, hs, rfl⟩)
    simpa [mergeOne, hl] using this
  · intro s hs hl
    have : mergeOne prev s ∈ (mergeServerNotes prev server).1 := by
      simp only [mergeServerNotes, List.mem_append]
      exact Or.inl (List.mem_map.mpr ⟨s, hs, rfl⟩)
    simpa [mergeOne, hl] using this
  · intro n hn hids
    simp only [mergeServerNotes, List.mem_append]
    refine Or.inr (List.mem_filter.mpr ⟨hn, ?_⟩)
    rw [Bool.not_eq_true', List.any_eq_false]
    intro s hs
    simpa using hids s hs
  · intro he
    simp only [mergeServerNotes] at he ⊢
    rw [he]
    rfl
  · intro n hn
    have := maxZIndex_ge hn
    simp only [mergeServerNotes] at this ⊢
    omega
  · intro he
    rcases maxZIndex_mem he with ⟨n, hn, hz⟩
    exact ⟨n, hn, by simp only [mergeServerNotes] at hz ⊢; omega⟩

/-- Witness for C1 at the specification's scenario: the merged note carries
remote text and color with local geometry. -/
theorem claim_C1_witness :
    byIdGet [localSample] remoteSample.id = some localSample ∧
      (⟨"A", ⟨10, 10⟩, ⟨200, 150⟩, "hi", "#fff", 5⟩ : Note)
        ∈ (mergeServerNotes [localSample] [remoteSample]).1 := by
  refine ⟨by decide, ?_⟩
  have h := (claim_C1_merge_functional [localSample] [remoteSample]).1 remoteSample
    (List.mem_singleton.mpr rfl) localSample (by decide)
  exact h

lemma mergeOne_of_byIdGet_some {l : List Note} {s t : Note} (h : byIdGet l s.id = some t) :
    mergeOne l s = { s with position := t.position, size := t.size, zIndex := t.zIndex } := by
  unfold mergeOne
  rw [h]

lemma mergeOne_geom_absorb (prev : List Note) (s : Note) :
    ({ s with
        position := (mergeOne prev s).position
        size := (mergeOne prev s).size
        zIndex := (mergeOne prev s).zIndex } : Note) = mergeOne prev s := by
  unfold mergeOne
  cases byIdGet prev s.id <;> rfl

lemma filter_idem (p : Note → Bool) (l : List Note) : (l.filter p).filter p = l.filter p := by
  induction l with
  | nil => rfl
  | cons a t ih => cases h : p a <;> simp [List.filter_cons, h, ih]

/-- C2: `mergeServerNotes` is idempotent when the server notes have
pairwise-distinct ids: merging a merge result against the same server
list again returns the identical list and counter. -/
theorem claim_C2_merge_idempotent (prev server : List Note)
    (hnd : (server.map Note.id).Nodup) :
    mergeServerNotes (mergeServerNotes prev server).1 server = mergeServerNotes prev server := by
  have hMO : ∀ s ∈ server,
      mergeOne (mergeServerNotes prev server).1 s = mergeOne prev s := by
    intro s hs
    have hnone :
        byIdGet (prev.filter (fun n => !(server.any (fun s => s.id == n.id)))) s.id = none := by
      apply byIdGet_eq_none
      intro n hn
      exact (localOnly_mem hn s hs).symm
    have hm : byIdGet (mergeServerNotes prev server).1 s.id = some (mergeOne prev s) := by
      show byIdGet
        (server.map (mergeOne prev) ++
          prev.filter (fun n => !(server.any (fun s => s.id == n.id)))) s.id = _
      rw [byIdGet_append_none _ hnone]
      exact byIdGet_map_mergeOne prev hnd hs
    rw [mergeOne_of_byIdGet_some hm, mergeOne_geom_absorb]
  have hmap : server.map (mergeOne (mergeServerNotes prev server).1) =
      server.map (mergeOne prev) := List.map_congr_left hMO
  have h1 : (server.map (mergeOne prev)).filter
      (fun n => !(server.any (fun s => s.id == n.id))) = [] := by
    rw [List.filter_eq_nil_iff]
    intro a ha
    rcases List.mem_map.mp ha with ⟨s, hs, rfl⟩
    simp [mergeOne_id]
    exact ⟨s, hs, rfl⟩
  have hfil : (mergeServerNotes prev server).1.filter
        (fun n => !(server.any (fun s => s.id == n.id))) =
      prev.filter (fun n => !(server.any (fun s => s.id == n.id))) := by
    show (server.map (mergeOne prev) ++
        prev.filter (fun n => !(server.any (fun s => s.id == n.id)))).filter
        (fun n => !(server.any (fun s => s.id == n.id))) = _
    rw [List.filter_append, h1, filter_idem, List.nil_append]
  have hres : (mergeServerNotes (mergeServerNotes prev server).1 server).1 =
      (mergeServerNotes prev server).1 := by
    show server.map (mergeOne (mergeServerNotes prev server).1) ++
        (mergeServerNotes prev server).1.filter
          (fun n => !(server.any (fun s => s.id == n.id))) = _
    rw [hmap, hfil]
    rfl
  have hcnt : (mergeServerNotes (mergeServerNotes prev server).1 server).2 =
      (mergeServerNotes prev server).2 := by
    show maxZIndex (mergeServerNotes (mergeServerNotes prev server).1 server).1 + 1 =
      maxZIndex (mergeServerNotes prev server).1 + 1
    rw [hres]
  exact Prod.ext hres hcnt

/-- Witness for C2 at the specification's scenario inputs. -/
theorem claim_C2_witness :
    (([remoteSample].map Note.id).Nodup) ∧
      mergeServerNotes (mergeServerNotes [localSample] [remoteSample]).1 [remoteSample] =
        mergeServerNotes [localSample] [remoteSample] :=
  ⟨by decide, claim_C2_merge_idempotent [localSample] [remoteSample] (by decide)⟩

/-- C3: during a resize drag started at pointer `sp` on a note of size
`sz`, a pointer sample `p` yields exactly one resize intent whose extent
is `max 100 (width + dx)` by `max 80 (height + dy)` with
`(dx, dy) = p - sp`; the result never goes below the 100 × 80 floor and
has no upper clamp. -/
theorem claim_C3_resize_extent (nid : String) (hnid : nid ≠ "")
    (sp np : Pos) (sz : Size) (p : Pos) :
    ∃ ext : Size,
      handleDrag (startDrag idleController nid DragType.resize sp np (some sz)) p
        = [Intent.resize nid ext] ∧
      ext.width = max 100 (sz.width + (p.x - sp.x)) ∧
      ext.height = max 80 (sz.height + (p.y - sp.y)) ∧
      100 ≤ ext.width ∧ 80 ≤ ext.height := by
  refine ⟨⟨max 100 (sz.width + (p.x - sp.x)), max 80 (sz.height + (p.y - sp.y))⟩,
    ?_, rfl, rfl, le_max_left _ _, le_max_left _ _⟩
  have hx : p.x - (sp.x - np.x) - np.x = p.x - sp.x := by ring
  have hy : p.y - (sp.y - np.y) - np.y = p.y - sp.y := by ring
  simp only [handleDrag, startDrag, idleController, jsFalsyId, hnid,
    Bool.not_true, Bool.false_or, beq_iff_eq, if_neg hnid, Bool.or_false]
  simp [hnid, hx, hy]

/-- Witness for C3 at the specification's resize scenario: extent
`(200, 150)`, drag from the origin, pointer delta `(-500, -500)`,
result `(100, 80)`. -/
theorem claim_C3_witness :
    ("note-1" : String) ≠ "" ∧
      ∃ ext : Size,
        handleDrag (startDrag idleController "note-1" DragType.resize ⟨0, 0⟩ ⟨0, 0⟩
            (some ⟨200, 150⟩)) ⟨-500, -500⟩
          = [Intent.resize "note-1" ext] ∧
        ext.width = max 100 (200 + ((-500 : ℚ) - 0)) ∧
        ext.height = max 80 (150 + ((-500 : ℚ) - 0)) ∧
        100 ≤ ext.width ∧ 80 ≤ ext.height :=
  ⟨by decide, claim_C3_resize_extent "note-1" (by decide) ⟨0, 0⟩ ⟨0, 0⟩ ⟨200, 150⟩ ⟨-500, -500⟩⟩

/-- C4: `endDrag` is a no-op without an active session; with an active
session it always resets to the idle state, emits a delete intent exactly
when the drag is move-mode and the pointer is inside the trash rectangle
(inclusive on all four edges), and a resize-mode drag never emits
anything. -/
theorem claim_C4_endDrag (c : DragController) (p : Pos) (rect : Rect) (tz : Option Rect) :
    (¬ sessionActive c → endDrag c p tz = (c, [])) ∧
    (sessionActive c → (endDrag c p tz).1 = idleController) ∧
    (∀ nid, c.startDraggedId = some nid → nid ≠ "" → c.dragState.isDragging = true →
      (Intent.delete nid ∈ (endDrag c p (some rect)).2 ↔
        (c.dragState.dragType = some DragType.move ∧ isOverTrash rect p = true))) ∧
    (c.dragState.dragType = some DragType.resize → (endDrag c p tz).2 = []) := by
  obtain ⟨⟨d, dt, spos, ssz, off⟩, snid⟩ := c
  refine ⟨?_, ?_, ?_, ?_⟩
  · intro hna
    cases d with
    | false => simp [endDrag]
    | true =>
      cases snid with
      | none => simp [endDrag, jsFalsyId]
      | some s =>
        have hs : s = "" := by
          by_contra hne
          exact hna ⟨rfl, s, rfl, hne⟩
        subst hs
        simp [endDrag, jsFalsyId]
  · rintro ⟨hd, nid, hnid, hne⟩
    simp only at hd hnid
    subst hd
    cases hnid
    simp [endDrag, jsFalsyId, hne]
  · intro nid hnid hne hd
    simp only at hd hnid
    subst hd
    cases hnid
    simp only [endDrag, jsFalsyId, Bool.not_true, Bool.false_or, beq_iff_eq,
      if_neg hne]
    cases dt with
    | none => simp
    | some t =>
      cases t with
      | move =>
        by_cases hover : isOverTrash rect p = true
        · simp [hover]
        · simp [hover, Bool.not_eq_true] at hover ⊢
      | resize => simp
  · intro hdt
    simp only at hdt
    subst hdt
    cases d with
    | false => simp [endDrag]
    | true =>
      cases snid with
      | none => simp [endDrag, jsFalsyId]
      | some s =>
        by_cases hs : s = ""
        · subst hs
          simp [endDrag, jsFalsyId]
        · simp [endDrag, jsFalsyId, hs]

/-- Witness for C4: a move-mode session dropped at `(5, 5)` inside the
rectangle `[0, 10] × [0, 10]` emits the delete intent. -/
theorem claim_C4_witness :
    Intent.delete "note-1" ∈
      (endDrag ⟨⟨true, some DragType.move, ⟨0, 0⟩, none, ⟨0, 0⟩⟩, some "note-1"⟩
        ⟨5, 5⟩ (some ⟨0, 10, 0, 10⟩)).2 := by
  have h := (claim_C4_endDrag ⟨⟨true, some DragType.move, ⟨0, 0⟩, none, ⟨0, 0⟩⟩, some "note-1"⟩
    ⟨5, 5⟩ ⟨0, 10, 0, 10⟩ (some ⟨0, 10, 0, 10⟩)).2.2.1 "note-1" rfl (by decide) rfl
  exact h.mpr ⟨rfl, by decide⟩

/-- Counterexample to C5: hydrate from a server note of stack order 1
(counter becomes 2), create a note (counter 3), drag it to the trash
(counter stays 3), then refresh from the unchanged server: the merge
recomputes the counter as 1 + max stack order = 2, a decrease. -/
theorem claim_C5_counterexample :
    (runOps initialState
        [Op.hydrateOp [serverNote] [], Op.create "b" ⟨0, 0⟩ "#fff",
          Op.removeOp "b"]).nextZIndex = 3 ∧
    (runOps initialState
        [Op.hydrateOp [serverNote] [], Op.create "b" ⟨0, 0⟩ "#fff",
          Op.removeOp "b", Op.refresh [serverNote]]).nextZIndex = 2 := by
  decide

/-- C5 as amended: the stack counter never decreases across the
operations that do not replace the collection wholesale (create,
updateText, move, resize, raiseToFront, remove, deleteAll); refresh and
hydration recompute it from the adopted collection instead. -/
theorem claim_C5_monotone_outside_reconcile (s : AppState) (op : Op)
    (h : op.isReconcile = false) :
    s.nextZIndex ≤ (stepOp s op).nextZIndex := by
  cases op with
  | create id p color => simp [stepOp, createNote]
  | updText id t =>
    simp only [stepOp, updateNoteText]
    cases hfind : s.notes.find? (fun n => n.id == id) <;> simp [hfind]
  | moveOp id p =>
    simp only [stepOp, moveNote]
    cases hfind : s.notes.find? (fun n => n.id == id) <;> simp [hfind]
  | resizeOp id sz => simp [stepOp, resizeNote]
  | raiseToFront id => simp [stepOp, bringToFront]
  | removeOp id => simp [stepOp, deleteNoteApp]
  | deleteAll => simp [stepOp]
  | refresh server => exact absurd h (by simp [Op.isReconcile])
  | hydrateOp api saved => exact absurd h (by simp [Op.isReconcile])

/-- Witness for the amended C5 at a concrete state and operation. -/
theorem claim_C5_witness :
    (Op.deleteAll).isReconcile = false ∧
      (⟨[serverNote], 5, true⟩ : AppState).nextZIndex ≤
        (stepOp ⟨[serverNote], 5, true⟩ Op.deleteAll).nextZIndex :=
  ⟨rfl, claim_C5_monotone_outside_reconcile ⟨[serverNote], 5, true⟩ Op.deleteAll rfl⟩

/-- C6: hydration runs at most once — once `hasHydrated` is set the
hydration step is the identity and no operation ever clears the flag;
an un-hydrated state adopts a non-empty remote fetch (counter = 1 + its
maximum stack order), else a non-empty local snapshot (same counter
rule), else stays unchanged. -/
theorem claim_C6_hydration (s : AppState) (api saved : List Note) (op : Op) :
    (s.hasHydrated = true → stepOp s (Op.hydrateOp api saved) = s) ∧
    (s.hasHydrated = true → (stepOp s op).hasHydrated = true) ∧
    (s.hasHydrated = false → api ≠ [] →
      (stepOp s (Op.hydrateOp api saved)).notes = api ∧
      (stepOp s (Op.hydrateOp api saved)).hasHydrated = true ∧
      (∀ n ∈ api, n.zIndex < (stepOp s (Op.hydrateOp api saved)).nextZIndex) ∧
      (∃ n ∈ api, (stepOp s (Op.hydrateOp api saved)).nextZIndex = n.zIndex + 1)) ∧
    (s.hasHydrated = false → api = [] → saved ≠ [] →
      (stepOp s (Op.hydrateOp api saved)).notes = saved ∧
      (stepOp s (Op.hydrateOp api saved)).hasHydrated = true ∧
      (∀ n ∈ saved, n.zIndex < (stepOp s (Op.hydrateOp api saved)).nextZIndex) ∧
      (∃ n ∈ saved, (stepOp s (Op.hydrateOp api saved)).nextZIndex = n.zIndex + 1)) ∧
    (s.hasHydrated = false → api = [] → saved = [] →
      stepOp s (Op.hydrateOp api saved) = s) := by
  refine ⟨?_, ?_, ?_, ?_, ?_⟩
  · intro hh
    simp [stepOp, hydrate, hh]
  · intro hh
    cases op with
    | create id p color => simpa [stepOp, createNote] using hh
    | updText id t =>
      simp only [stepOp, updateNoteText]
      cases hfind : s.notes.find? (fun n => n.id == id) <;> simpa [hfind] using hh
    | moveOp id p =>
      simp only [stepOp, moveNote]
      cases hfind : s.notes.find? (fun n => n.id == id) <;> simpa [hfind] using hh
    | resizeOp id sz => simpa [stepOp, resizeNote] using hh
    | raiseToFront id => simpa [stepOp, bringToFront] using hh
    | removeOp id => simpa [stepOp, deleteNoteApp] using hh
    | deleteAll => simpa [stepOp] using hh
    | refresh server =>
      simp only [stepOp, refreshFromServer]
      by_cases hs : server = [] <;> simp [hs, hh]
    | hydrateOp a b => simp [stepOp, hydrate, hh]
  · intro hh hapi
    have hz := maxZIndex_mem hapi
    simp only [stepOp, hydrate, hh, if_neg hapi, Bool.false_eq_true, if_false]
    refine ⟨by trivial, by trivial, ?_, ?_⟩
    · intro n hn
      have := maxZIndex_ge hn
      omega
    · rcases hz with ⟨n, hn, he⟩
      exact ⟨n, hn, by omega⟩
  · intro hh hapi hsaved
    have hz := maxZIndex_mem hsaved
    simp only [stepOp, hydrate, hh, hapi, if_neg hsaved, Bool.false_eq_true, if_false,
      if_true]
    refine ⟨by trivial, by trivial, ?_, ?_⟩
    · intro n hn
      have := maxZIndex_ge hn
      omega
    · rcases hz with ⟨n, hn, he⟩
      exact ⟨n, hn, by omega⟩
  · intro hh hapi hsaved
    simp [stepOp, hydrate, hh, hapi, hsaved]

/-- Witness for C6: a hydrated state ignores a later hydration with
fresh remote data, and an un-hydrated empty state adopts the remote
fetch. -/
theorem claim_C6_witness :
    stepOp ⟨[sampleB], 7, true⟩ (Op.hydrateOp [serverNote] []) = ⟨[sampleB], 7, true⟩ ∧
      (stepOp initialState (Op.hydrateOp [serverNote] [])).notes = [serverNote] ∧
      (stepOp initialState (Op.hydrateOp [serverNote] [])).hasHydrated = true := by
  have h1 := (claim_C6_hydration ⟨[sampleB], 7, true⟩ [serverNote] [] Op.deleteAll).1 rfl
  have h2 := (claim_C6_hydration initialState [serverNote] [] Op.deleteAll).2.2.1 rfl
    (by decide)
  exact ⟨h1, h2.1, h2.2.1⟩

/-- C7: `createNote` appends the new note optimistically; when the
remote save then fails with an API error, the note is still present (the
local list is exactly the old list plus the new note — no rollback) and
the hook records the error's message, leaving its own list untouched. -/
theorem claim_C7_create_no_rollback (s : AppState) (sync : SyncState) (id : String)
    (p : Pos) (color : String) (e : ApiErr) :
    (createNoteWithSave s sync id p color (some e)).1.notes
        = s.notes ++ [mkNote id p color s.nextZIndex] ∧
      mkNote id p color s.nextZIndex ∈ (createNoteWithSave s sync id p color (some e)).1.notes ∧
      (createNoteWithSave s sync id p color (some e)).2.error = some e.message ∧
      (createNoteWithSave s sync id p color (some e)).2.notes = sync.notes := by
  refine ⟨rfl, ?_, rfl, rfl⟩
  simp [createNoteWithSave, createNote]

lemma deleteNoteApi_none_eq (sy : SyncState) (db : List Note) (i : String) :
    deleteNoteApi sy db i none =
      if db.any (fun n => n.id == i) then
        ({ sy with
            notes := sy.notes.filter (fun n => !(n.id == i))
            isLoading := false
            error := none },
         db.filter (fun n => !(n.id == i)))
      else ({ sy with isLoading := false, error := some "Note not found" }, db) := rfl

lemma deleteNoteApi_db_sub (sy : SyncState) (db : List Note) (i : String)
    (oc : Option ApiErr) : ∀ m ∈ (deleteNoteApi sy db i oc).2, m ∈ db := by
  cases oc with
  | some e => intro m hm; exact hm
  | none =>
    intro m hm
    rw [deleteNoteApi_none_eq] at hm
    by_cases hany : db.any (fun n => n.id == i) = true
    · rw [if_pos hany] at hm
      exact List.mem_of_mem_filter hm
    · rw [if_neg hany] at hm
      exact hm

lemma deleteManySteps_db_sub (outcome : String → Option ApiErr) (ids : List String)
    (acc : SyncState × List Note) :
    ∀ m ∈ (deleteManySteps outcome acc ids).2, m ∈ acc.2 := by
  induction ids generalizing acc with
  | nil => intro m hm; exact hm
  | cons i t ih =>
    intro m hm
    exact deleteNoteApi_db_sub acc.1 acc.2 i (outcome i) m (ih _ m hm)

lemma deleteNoteApi_db_clean (sy : SyncState) (db : List Note) (i : String) :
    ∀ m ∈ (deleteNoteApi sy db i none).2, m.id ≠ i := by
  intro m hm
  rw [deleteNoteApi_none_eq] at hm
  by_cases hany : db.any (fun n => n.id == i) = true
  · rw [if_pos hany] at hm
    have h2 := (List.mem_filter.mp hm).2
    simpa using h2
  · rw [if_neg hany] at hm
    intro hid
    apply hany
    exact List.any_eq_true.mpr ⟨m, hm, by simpa using hid⟩

lemma deleteManySteps_removes (outcome : String → Option ApiErr) {i : String}
    (hnone : outcome i = none) (ids : List String) (acc : SyncState × List Note)
    (hmem : i ∈ ids) :
    ∀ m ∈ (deleteManySteps outcome acc ids).2, m.id ≠ i := by
  induction ids generalizing acc with
  | nil => cases hmem
  | cons j t ih =>
    intro m hm
    rcases List.mem_cons.mp hmem with rfl | hmem'
    · by_cases ht : i ∈ t
      · exact ih _ ht m hm
      · have hsub := deleteManySteps_db_sub outcome t
          (deleteNoteApi acc.1 acc.2 i (outcome i)) m hm
        rw [hnone] at hsub
        exact deleteNoteApi_db_clean acc.1 acc.2 i m hsub
    · exact ih _ hmem' m hm

lemma deleteManySteps_append (outcome : String → Option ApiErr) (acc : SyncState × List Note)
    (l1 l2 : List String) :
    deleteManySteps outcome acc (l1 ++ l2) =
      deleteManySteps outcome (deleteManySteps outcome acc l1) l2 := by
  induction l1 generalizing acc with
  | nil => rfl
  | cons i t ih => simp [deleteManySteps, ih]

/-- Counterexample to C8: with notes `a`, `b`, `c` where only the delete
of `b` fails, the deletes settle in issue order, so the successful delete
of `c` clears the error recorded by `b`; `lastError` ends `none` even
though one remote delete failed. -/
theorem claim_C8_counterexample :
    (deleteAllNotes ⟨[serverNote, sampleB, sampleC], 4, true⟩
        ⟨[serverNote, sampleB, sampleC], false, none⟩ [serverNote, sampleB, sampleC]
        outcomeMid).1.notes = [] ∧
    (deleteAllNotes ⟨[serverNote, sampleB, sampleC], 4, true⟩
        ⟨[serverNote, sampleB, sampleC], false, none⟩ [serverNote, sampleB, sampleC]
        outcomeMid).2.2 = [sampleB] ∧
    (deleteAllNotes ⟨[serverNote, sampleB, sampleC], 4, true⟩
        ⟨[serverNote, sampleB, sampleC], false, none⟩ [serverNote, sampleB, sampleC]
        outcomeMid).2.1.error = none := by
  decide

/-- C8 as amended: `deleteAll` always ends with the local collection
empty; every previously-known note whose remote delete did not fail is
gone from the remote store; and `lastError` is set when the failing
delete is the last to settle (a later successful delete clears it). -/
theorem claim_C8_deleteAll (s : AppState) (sync : SyncState) (db : List Note)
    (outcome : String → Option ApiErr) :
    (deleteAllNotes s sync db outcome).1.notes = [] ∧
    (∀ n ∈ sync.notes, outcome n.id = none →
      ∀ m ∈ (deleteAllNotes s sync db outcome).2.2, m.id ≠ n.id) ∧
    (∀ (l : List Note) (e : ApiErr) (lastN : Note),
      sync.notes = l ++ [lastN] → outcome lastN.id = some e →
      (deleteAllNotes s sync db outcome).2.1.error = some e.message) := by
  refine ⟨rfl, ?_, ?_⟩
  · intro n hn hout m hm
    exact deleteManySteps_removes outcome hout (sync.notes.map Note.id) (sync, db)
      (List.mem_map.mpr ⟨n, hn, rfl⟩) m hm
  · intro l e lastN hsplit hfail
    show (deleteManySteps outcome (sync, db) (sync.notes.map Note.id)).1.error = _
    rw [hsplit, List.map_append, deleteManySteps_append]
    simp [deleteManySteps, deleteNoteApi, hfail]

/-- Witness for the amended C8: the delete of `c` fails last, so its
message is recorded, while the non-failing notes are gone remotely. -/
theorem claim_C8_witness :
    outcomeLast sampleC.id = some ⟨500, "Failed to delete note from server"⟩ ∧
      (deleteAllNotes ⟨[], 4, true⟩ ⟨[serverNote, sampleB, sampleC], false, none⟩
          [serverNote, sampleB, sampleC] outcomeLast).2.1.error
        = some "Failed to delete note from server" ∧
      ∀ m ∈ (deleteAllNotes ⟨[], 4, true⟩ ⟨[serverNote, sampleB, sampleC], false, none⟩
          [serverNote, sampleB, sampleC] outcomeLast).2.2, m.id ≠ "a" := by
  refine ⟨by decide, ?_, ?_⟩
  · exact (claim_C8_deleteAll ⟨[], 4, true⟩ ⟨[serverNote, sampleB, sampleC], false, none⟩
      [serverNote, sampleB, sampleC] outcomeLast).2.2 [serverNote, sampleB]
      ⟨500, "Failed to delete note from server"⟩ sampleC rfl (by decide)
  · intro m hm
    have h := (claim_C8_deleteAll ⟨[], 4, true⟩ ⟨[serverNote, sampleB, sampleC], false, none⟩
      [serverNote, sampleB, sampleC] outcomeLast).2.1 serverNote (by decide) (by decide) m hm
    simpa using h

/-- Counterexample to C9: one pointer-move during a move-mode drag of an
existing note forwards a move intent whose handling requests a remote
save and a local-storage write, and the App's save-on-change effect
writes local storage again — durable I/O per pointer-move event. -/
theorem claim_C9_counterexample :
    (processPointerMove moveController appWithA ⟨7, 8⟩).2
      = [Eff.remoteSave { serverNote with position := (⟨7, 8⟩ : Pos) },
         Eff.localWrite [{ serverNote with position := (⟨7, 8⟩ : Pos) }],
         Eff.localWrite [{ serverNote with position := (⟨7, 8⟩ : Pos) }]] := by
  simp [processPointerMove, handleDrag, jsFalsyId, moveController, appWithA,
    applyIntent, moveNote, serverNote]

/-- C9 as amended: a pointer-move that forwards no intent performs no
durable I/O (`handleDrag` itself only computes and forwards geometry);
a resize-mode pointer-move never issues a remote save or delete — every
durable effect it causes is a local-storage write — and with an active
resize session its durable I/O is exactly the one local-storage write of
the App's save-on-change effect. -/
theorem claim_C9_resize_local_only (c : DragController) (s : AppState) (p : Pos) :
    (handleDrag c p = [] → (processPointerMove c s p).2 = []) ∧
    (c.dragState.dragType = some DragType.resize →
      ∀ e ∈ (processPointerMove c s p).2, ∃ l, e = Eff.localWrite l) ∧
    (∀ nid sz, c.dragState.isDragging = true → c.startDraggedId = some nid → nid ≠ "" →
      c.dragState.dragType = some DragType.resize → c.dragState.startSize = some sz →
      ∃ l, (processPointerMove c s p).2 = [Eff.localWrite l]) := by
  refine ⟨?_, ?_, ?_⟩
  · intro h
    simp [processPointerMove, h]
  · intro h
    obtain ⟨⟨d, dt, spos, ssz, off⟩, snid⟩ := c
    simp only at h
    subst h
    cases d with
    | false => simp [processPointerMove, handleDrag]
    | true =>
      cases snid with
      | none => simp [processPointerMove, handleDrag, jsFalsyId]
      | some nid =>
        by_cases hn : nid = ""
        · subst hn
          simp [processPointerMove, handleDrag, jsFalsyId]
        · cases ssz with
          | none => simp [processPointerMove, handleDrag, jsFalsyId, hn]
          | some sz =>
            intro e he
            simp [processPointerMove, handleDrag, jsFalsyId, hn, applyIntent,
              resizeNote] at he
            exact ⟨_, he⟩
  · intro nid sz hd hsome hn hdt hsz
    obtain ⟨⟨d, dt, spos, ssz, off⟩, snid⟩ := c
    simp only at hd hsome hdt hsz
    subst hd
    subst hdt
    cases hsome
    subst hsz
    simp [processPointerMove, handleDrag, jsFalsyId, hn, applyIntent, resizeNote]

/-- Witness for the amended C9: on a concrete resize-mode pointer-move
every durable effect is a local-storage write. -/
theorem claim_C9_witness :
    ((⟨⟨true, some DragType.resize, ⟨0, 0⟩, some ⟨200, 150⟩, ⟨0, 0⟩⟩,
        some "a"⟩ : DragController).dragState.dragType = some DragType.resize) ∧
      ∀ e ∈ (processPointerMove
        ⟨⟨true, some DragType.resize, ⟨0, 0⟩, some ⟨200, 150⟩, ⟨0, 0⟩⟩, some "a"⟩
        appWithA ⟨7, 8⟩).2, ∃ l, e = Eff.localWrite l :=
  ⟨rfl, (claim_C9_resize_local_only
    ⟨⟨true, some DragType.resize, ⟨0, 0⟩, some ⟨200, 150⟩, ⟨0, 0⟩⟩, some "a"⟩
    appWithA ⟨7, 8⟩).2.1 rfl⟩

lemma map_if_id_eq_self {l : List Note} {i : String} (f : Note → Note)
    (h : ∀ n ∈ l, n.id ≠ i) :
    l.map (fun n => if n.id == i then f n else n) = l := by
  induction l with
  | nil => rfl
  | cons a t ih =>
    have ha : (a.id == i) = false := by
      simpa using h a (List.mem_cons_self _ _)
    simp only [List.map_cons, ha, Bool.false_eq_true, if_false,
      ih fun n hn => h n (List.mem_cons_of_mem _ hn)]

/-- C10: the per-note operations applied to an id absent from the
collection leave the note list unchanged and issue no effects — in
particular `move` and `updateText` issue no remote save (`raiseToFront`
still bumps the counter, but the list is untouched). -/
theorem claim_C10_missing_id (s : AppState) (i : String) (p : Pos) (sz : Size) (t : String)
    (h : ∀ n ∈ s.notes, n.id ≠ i) :
    moveNote s i p = (s, []) ∧
    resizeNote s i sz = (s, []) ∧
    updateNoteText s i t = (s, []) ∧
    (bringToFront s i).1.notes = s.notes ∧
    (bringToFront s i).2 = [] := by
  have hfind : s.notes.find? (fun n => n.id == i) = none :=
    List.find?_eq_none.mpr fun n hn => by simpa using h n hn
  refine ⟨?_, ?_, ?_, ?_, rfl⟩
  · simp only [moveNote, hfind, map_if_id_eq_self _ h]
  · simp only [resizeNote, map_if_id_eq_self _ h]
  · simp only [updateNoteText, hfind, map_if_id_eq_self _ h]
  · simp only [bringToFront, map_if_id_eq_self _ h]

/-- Witness for C10 at a concrete state and an absent id. -/
theorem claim_C10_witness :
    (∀ n ∈ (⟨[serverNote], 2, true⟩ : AppState).notes, n.id ≠ "zzz") ∧
      moveNote ⟨[serverNote], 2, true⟩ "zzz" ⟨3, 3⟩ = (⟨[serverNote], 2, true⟩, []) ∧
      updateNoteText ⟨[serverNote], 2, true⟩ "zzz" "x" = (⟨[serverNote], 2, true⟩, []) := by
  have h : ∀ n ∈ (⟨[serverNote], 2, true⟩ : AppState).notes, n.id ≠ "zzz" := by decide
  have hall := claim_C10_missing_id ⟨[serverNote], 2, true⟩ "zzz" ⟨3, 3⟩ ⟨4, 4⟩ "x" h
  exact ⟨h, hall.1, hall.2.2.1⟩

end StickyNotes
